import Mathlib

/-!
# Board logic of the minesweeper `GameBoard`

A shallow embedding of `src/mon/src/gameboard.cpp`.

* `unsigned int` values are natural numbers; every operation that can wrap is
  written with an explicit reduction modulo `UINT_MOD = 2 ^ 32`.
* A `Tile*` is the identity of the tile object, given by the coordinates passed
  to its constructor in `createTiles`.
* A `QSet<Tile*>` is a duplicate-free list; every statement below is made for an
  arbitrary such list, hence for every iteration order of the hash set.
* Indexing a `QList` outside its range is the failure `Failure.outOfRange`;
  `throw std::invalid_argument` is `Failure.invalidArgument`.
* Signals emitted by the board are returned as a list, in emission order.
-/

namespace Minesweeper

/-! ## Data model -/

/-- Modulus of `unsigned int` arithmetic. -/
def UINT_MOD : Nat := 4294967296

/-- Unsigned 32-bit subtraction `a - b` for `a, b < UINT_MOD`. -/
def usub (a b : Nat) : Nat := (a + UINT_MOD - b) % UINT_MOD

/-- Unsigned 32-bit multiplication. -/
def umul (a b : Nat) : Nat := (a * b) % UINT_MOD

/-- Modelled from the spec: the class `Tile` (tile.h, tile.cpp) is missing from the
sources. A value of this type stands for a `Tile*`: the tile constructed by
`new Tile(row, column, ...)`, "row index, column index (both unsigned, 0-based)". -/
structure Tile where
  row : Nat
  column : Nat
deriving DecidableEq, Repr

/-- The two ways an operation of the board can fail to complete. -/
inductive Failure where
  | invalidArgument
  | outOfRange
deriving DecidableEq, Repr

/-- Signals emitted by `GameBoard`, and the tile signals it emits itself
(`detonated` in `quit`, `reveal` in `defeatAnimation`). -/
inductive Signal where
  | initialized
  | victory
  | defeat
  | flagCountChanged (total : Nat)
  | detonated (tile : Tile)
  | reveal (tile : Tile)
deriving DecidableEq, Repr

/-- The operation `QSet::insert`. -/
def qsetInsert (s : List Tile) (t : Tile) : List Tile :=
  if t ∈ s then s else s ++ [t]

/-- The members of `GameBoard` that carry game state. `neighbors t` is the
neighbour list held by tile `t`; `explosionVictory` is the dynamic property
`"victory"` of `explosionTimer`, unset until `victory` or `defeat` is emitted;
`detonatedConnected` lists the tiles whose `detonated` signal is connected to
`GameBoard::defeatAnimation`, the only connection the board ever removes. -/
structure GameBoard where
  m_numRows : Nat
  m_numColumns : Nat
  m_numMines : Nat
  m_tiles : List (List Tile)
  neighbors : Tile → List Tile
  m_mines : List Tile
  m_correctFlags : List Tile
  m_incorrectFlags : List Tile
  m_revealedTiles : List Tile
  m_victory : Bool
  explosionVictory : Option Bool
  detonatedConnected : List Tile

/-- Modelled from the spec: `Tile::addNeighbor` is missing from the sources; it
records one more entry in the tile's adjacency list ("neighbors ... populated
once"). -/
def GameBoard.addNeighbor (b : GameBoard) (tile neighbor : Tile) : GameBoard :=
  { b with neighbors := fun t => if t = tile then b.neighbors t ++ [neighbor] else b.neighbors t }

/-- The loop `for (unsigned int i = 0; i < n; ++i) body(i)` over a state, stopping
at the first failure. -/
def forUpTo {σ : Type} : Nat → (Nat → σ → Except Failure σ) → σ → Except Failure σ
  | 0, _, s => .ok s
  | n + 1, body, s =>
    match forUpTo n body s with
    | .ok s' => body n s'
    | .error e => .error e

/-- The access `m_tiles[row][column]`. -/
def tileAt (m_tiles : List (List Tile)) (row column : Nat) : Except Failure Tile :=
  match m_tiles[row]? with
  | none => .error .outOfRange
  | some r =>
    match r[column]? with
    | none => .error .outOfRange
    | some t => .ok t

/-! ## Construction -/

/-- The function `GameBoard::validMineCount`. -/
def validMineCount (numRows numColums numMines : Nat) : Bool :=
  decide (numMines < umul numRows numColums)

/-- The statement `m_tiles[row] += new Tile(row, column, tileWidth, this)`. -/
def appendTile (m_tiles : List (List Tile)) (row column : Nat) :
    Except Failure (List (List Tile)) :=
  match m_tiles[row]? with
  | none => .error .outOfRange
  | some r => .ok (m_tiles.set row (r ++ [Tile.mk row column]))

/-- The body of the inner loop of `GameBoard::createTiles`, on the pair of `m_tiles`
and the tiles connected to `defeatAnimation`: the new tile is appended to its row,
then `connect(m_tiles[row][column], &Tile::detonated, this,
&GameBoard::defeatAnimation)` records its connection. The connections of `flagged`,
`unFlagged` and `revealed` are never removed; they are the handlers `onFlagged`,
`onUnFlagged`, `onRevealed` below. -/
def createTile (st : List (List Tile) × List Tile) (row column : Nat) :
    Except Failure (List (List Tile) × List Tile) :=
  match appendTile st.1 row column with
  | .error e => .error e
  | .ok tiles =>
    match tileAt tiles row column with
    | .error e => .error e
    | .ok tile => .ok (tiles, st.2 ++ [tile])

/-- The function `GameBoard::createTiles`: the grid of tiles with their connections,
then the access `m_tiles[0][0]` of its last statement. -/
def createTiles (b : GameBoard) : Except Failure GameBoard :=
  match forUpTo b.m_numRows (fun row st =>
      forUpTo b.m_numColumns (fun column st => createTile st row column)
        (st.1 ++ [[]], st.2)) (b.m_tiles, b.detonatedConnected) with
  | .error e => .error e
  | .ok st =>
    match tileAt st.1 0 0 with
    | .error e => .error e
    | .ok _ => .ok { b with m_tiles := st.1, detonatedConnected := st.2 }

/-- The eight `if` statements of one iteration of `GameBoard::addNeighbors`, for the
tile at `(row, column)`: the index pairs `[r][c]` whose tile is added as a neighbour,
in source order. -/
def neighborIndicesFrom (lastRow lastColumn row column : Nat) : List (Nat × Nat) :=
  (if row ≠ 0 ∧ column ≠ 0 then [(row - 1, column - 1)] else []) ++
  (if row ≠ 0 then [(row - 1, column)] else []) ++
  (if row ≠ 0 ∧ column < lastColumn then [(row - 1, column + 1)] else []) ++
  (if column < lastColumn then [(row, column + 1)] else []) ++
  (if row < lastRow ∧ column < lastColumn then [(row + 1, column + 1)] else []) ++
  (if row < lastRow then [(row + 1, column)] else []) ++
  (if row < lastRow ∧ column ≠ 0 then [(row + 1, column - 1)] else []) ++
  (if column ≠ 0 then [(row, column - 1)] else [])

/-- The index pairs read by one iteration of `GameBoard::addNeighbors`, with
`lastRow = m_numRows - 1` and `lastColumn = m_numColumns - 1` computed in
`unsigned int`. -/
def neighborIndices (numRows numColumns row column : Nat) : List (Nat × Nat) :=
  neighborIndicesFrom (usub numRows 1) (usub numColumns 1) row column

/-- The calls `tile->addNeighbor(m_tiles[r][c])` for a list of index pairs. -/
def addNeighborsFrom (tile : Tile) : List (Nat × Nat) → GameBoard → Except Failure GameBoard
  | [], b => .ok b
  | (r, c) :: rest, b =>
    match tileAt b.m_tiles r c with
    | .error e => .error e
    | .ok n => addNeighborsFrom tile rest (b.addNeighbor tile n)

/-- The function `GameBoard::addNeighbors`. -/
def addNeighbors (b : GameBoard) : Except Failure GameBoard :=
  forUpTo b.m_numRows (fun row b =>
    forUpTo b.m_numColumns (fun column b =>
      match tileAt b.m_tiles row column with
      | .error e => .error e
      | .ok tile =>
        addNeighborsFrom tile (neighborIndices b.m_numRows b.m_numColumns row column) b) b) b

/-- The board object before `initialize` runs. -/
def emptyBoard : GameBoard :=
  { m_numRows := 0, m_numColumns := 0, m_numMines := 0, m_tiles := [],
    neighbors := fun _ => [], m_mines := [], m_correctFlags := [],
    m_incorrectFlags := [], m_revealedTiles := [], m_victory := false,
    explosionVictory := none, detonatedConnected := [] }

/-- The assignments `m_numRows = settings->numRows()` etc. of `initialize`, on the
board object before any tile exists. -/
def applySettings (numRows numColumns numMines : Nat) : GameBoard :=
  { emptyBoard with
    m_numRows := numRows, m_numColumns := numColumns, m_numMines := numMines }

/-- The calls `createTiles(); addNeighbors();` of `initialize` (`setupLayout` only
sizes the widget). -/
def buildGrid (numRows numColumns numMines : Nat) : Except Failure GameBoard :=
  match createTiles (applySettings numRows numColumns numMines) with
  | .error e => .error e
  | .ok b => addNeighbors b

/-- The function `GameBoard::initialize`, run by the constructor on the values of
the settings object. -/
def initializeBoard (numRows numColumns numMines : Nat) : Except Failure GameBoard :=
  if !validMineCount numRows numColumns numMines then
    .error .invalidArgument
  else
    buildGrid numRows numColumns numMines

/-- Whether an operation completed. -/
def succeeded {α : Type} : Except Failure α → Bool
  | .ok _ => true
  | .error _ => false

/-- The tiles owned by the board an operation produced; none when it failed. -/
def tilesOf : Except Failure GameBoard → List (List Tile)
  | .ok b => b.m_tiles
  | .error _ => []

/-! ## Mine placement -/

/-- The set `doneUse` of `GameBoard::placeMines`: the first-clicked tile, then each of
its neighbours. -/
def doneUse (b : GameBoard) (firstClicked : Tile) : List Tile :=
  (b.neighbors firstClicked).foldl qsetInsert (qsetInsert [] firstClicked)

/-- The nested loops of `GameBoard::placeMines` that build the candidate list
`tiles`. The state is the pair of `m_tiles` (which the statement
`m_tiles += QList<Tile*>{}` extends in every row iteration) and `tiles`. -/
def collectCandidates (b : GameBoard) (firstClicked : Tile) :
    Except Failure (List (List Tile) × List Tile) :=
  forUpTo b.m_numRows (fun row st =>
    forUpTo b.m_numColumns (fun column st =>
      match tileAt st.1 row column with
      | .error e => .error e
      | .ok tile =>
        .ok (st.1, if (doneUse b firstClicked).contains tile then st.2 else st.2 ++ [tile]))
      (st.1 ++ [[]], st.2)) (b.m_tiles, [])

/-- The last loop of `GameBoard::placeMines`: `m_mines.insert(tiles[i])` for
`i < m_numMines`. The call `tiles[i]->placeMine(true)` marks the tile object
itself; the board's record of it is `m_mines`. -/
def mineLoop (tiles : List Tile) (numMines : Nat) (m_mines : List Tile) :
    Except Failure (List Tile) :=
  forUpTo numMines (fun i mines =>
    match tiles[i]? with
    | none => .error .outOfRange
    | some t => .ok (qsetInsert mines t)) m_mines

/-- The function `GameBoard::placeMines`. The outcome of `std::shuffle` is the
parameter `shuffle`, any rearrangement of the candidate list. -/
def placeMines (shuffle : List Tile → List Tile) (b : GameBoard) (firstClicked : Tile) :
    Except Failure (GameBoard × List Signal) :=
  match collectCandidates b firstClicked with
  | .error e => .error e
  | .ok (m_tiles, tiles) =>
    match mineLoop (shuffle tiles) b.m_numMines b.m_mines with
    | .error e => .error e
    | .ok mines => .ok ({ b with m_tiles := m_tiles, m_mines := mines }, [Signal.initialized])

/-- The mine set after an operation; none when the operation failed. -/
def minesOf : Except Failure (GameBoard × List Signal) → Option (List Tile)
  | .ok r => some r.1.m_mines
  | .error _ => none

/-- All tiles of the board, row by row. -/
def allTiles (b : GameBoard) : List Tile := b.m_tiles.flatten

/-- The candidate pool in the words of the spec: "all cells minus the first-clicked
cell and its neighbours". -/
def candidatePool (b : GameBoard) (firstClicked : Tile) : List Tile :=
  (allTiles b).filter (fun t => decide (t ≠ firstClicked ∧ t ∉ b.neighbors firstClicked))

/-! ## Victory, defeat, quit -/

/-- The slot connected to `victory` in `initialize`. -/
def onVictory (b : GameBoard) : GameBoard := { b with explosionVictory := some true }

/-- The slot connected to `defeat` in `initialize`. -/
def onDefeat (b : GameBoard) : GameBoard := { b with explosionVictory := some false }

/-- The function `GameBoard::checkVictory`: the new state and the signals emitted. -/
def checkVictory (b : GameBoard) : GameBoard × List Signal :=
  if !b.m_victory then
    let total := b.m_correctFlags.length + b.m_incorrectFlags.length
    if b.m_revealedTiles.length == usub (umul b.m_numColumns b.m_numRows) b.m_numMines
        && b.m_incorrectFlags.isEmpty then
      ({ onVictory b with m_victory := true }, [Signal.flagCountChanged total, Signal.victory])
    else
      (b, [Signal.flagCountChanged total])
  else
    (b, [])

/-- The handler connected to `Tile::flagged` in `createTiles`. -/
def onFlagged (b : GameBoard) (tile : Tile) (isMine : Bool) : GameBoard × List Signal :=
  if isMine then
    checkVictory { b with m_correctFlags := qsetInsert b.m_correctFlags tile }
  else
    checkVictory { b with m_incorrectFlags := qsetInsert b.m_incorrectFlags tile }

/-- The three outcomes of a session named by the spec. -/
inductive Outcome where
  | InProgress
  | Victory
  | Defeat
deriving DecidableEq, Repr

/-- The outcome recorded in the board: `m_victory` once `victory` was emitted, the
timer property set to false once `defeat` was emitted. -/
def outcome (b : GameBoard) : Outcome :=
  if b.m_victory then Outcome.Victory
  else if b.explosionVictory = some false then Outcome.Defeat
  else Outcome.InProgress

/-- The function `GameBoard::quit`: the signals it emits itself. What the emitted
`detonated` sets off is `detonatedSlot` below. -/
def quit (b : GameBoard) : Except Failure (List Signal) :=
  if b.m_mines.isEmpty then
    .ok []
  else
    match b.m_mines[0]? with
    | none => .error .outOfRange
    | some mine => .ok [Signal.detonated mine]

/-- The call `disconnect(mine, &Tile::detonated, this, &GameBoard::defeatAnimation)`:
every connection of the tile's `detonated` signal to the slot is removed. -/
def disconnectDetonated (connected : List Tile) (mine : Tile) : List Tile :=
  connected.filter (fun x => x ≠ mine)

/-- The body of the loop `for (auto mine : m_mines)` of `defeatAnimation`, on the pair
of the connected tiles and the signals emitted so far: the mine is disconnected, then
it receives `reveal` unless it is flagged. -/
def defeatLoopBody (isFlagged : Tile → Bool) (st : List Tile × List Signal) (mine : Tile) :
    List Tile × List Signal :=
  (disconnectDetonated st.1 mine,
    if !isFlagged mine then st.2 ++ [Signal.reveal mine] else st.2)

/-- The function `GameBoard::defeatAnimation` with `sender` the tile whose
`detonated` signal invoked it: the state once its 500 ms callback has run, the tile
given the explosion icon by its 350 ms callback, and the signals emitted, in order.
`isFlagged` is `Tile::isFlagged` of the tile objects. The style-sheet changes of the
flagged tiles are presentation and carry no state of the board. -/
def defeatAnimation (isFlagged : Tile → Bool) (b : GameBoard) (sender : Tile) :
    GameBoard × Tile × List Signal :=
  let st := b.m_mines.foldl (defeatLoopBody isFlagged) (b.detonatedConnected, [])
  (onDefeat { b with detonatedConnected := st.1 }, sender, st.2 ++ [Signal.defeat])

/-- The effect of a tile emitting `detonated`: the slot `defeatAnimation` runs when
the tile's signal is still connected to it, and nothing happens otherwise. The state
and the signals are those of `defeatAnimation`. -/
def detonatedSlot (isFlagged : Tile → Bool) (b : GameBoard) (tile : Tile) :
    GameBoard × List Signal :=
  if tile ∈ b.detonatedConnected then
    ((defeatAnimation isFlagged b tile).1, (defeatAnimation isFlagged b tile).2.2)
  else
    (b, [])

/-- The tiles that receive `reveal` in a list of signals. -/
def forceRevealed (signals : List Signal) : List Tile :=
  signals.filterMap (fun s => match s with
    | Signal.reveal t => some t
    | _ => none)

/-! ## Grid positions, in the words of the spec -/

/-- The tile lies in the first or the last row of the grid. -/
def onRowEdge (numRows : Nat) (t : Tile) : Prop := t.row = 0 ∨ t.row + 1 = numRows

/-- The tile lies in the first or the last column of the grid. -/
def onColumnEdge (numColumns : Nat) (t : Tile) : Prop := t.column = 0 ∨ t.column + 1 = numColumns

/-- The tile belongs to the grid. -/
def inGrid (numRows numColumns : Nat) (t : Tile) : Prop :=
  t.row < numRows ∧ t.column < numColumns

/-- Two tiles are adjacent: distinct, with coordinates differing by at most one. -/
def adjacent (a b : Tile) : Prop :=
  a ≠ b ∧ (a.row ≤ b.row + 1 ∧ b.row ≤ a.row + 1) ∧
    (a.column ≤ b.column + 1 ∧ b.column ≤ a.column + 1)

instance (numRows : Nat) (t : Tile) : Decidable (onRowEdge numRows t) := by
  unfold onRowEdge; infer_instance

instance (numColumns : Nat) (t : Tile) : Decidable (onColumnEdge numColumns t) := by
  unfold onColumnEdge; infer_instance

instance (numRows numColumns : Nat) (t : Tile) : Decidable (inGrid numRows numColumns t) := by
  unfold inGrid; infer_instance

instance (a b : Tile) : Decidable (adjacent a b) := by
  unfold adjacent; infer_instance

/-- The neighbour list of a tile after an operation; empty when it failed. -/
def neighborsOf (r : Except Failure GameBoard) (t : Tile) : List Tile :=
  match r with
  | .ok b => b.neighbors t
  | .error _ => []

/-! ## Closed forms used in the proofs -/

/-- Row `row` of the grid of tiles: the tiles `(row, 0), ..., (row, numColumns - 1)`. -/
def gridRow (numColumns row : Nat) : List Tile :=
  (List.range numColumns).map (fun column => Tile.mk row column)

/-- The grid of tiles that `createTiles` builds. -/
def grid (numRows numColumns : Nat) : List (List Tile) :=
  (List.range numRows).map (gridRow numColumns)

/-- The tile pointers read through a list of index pairs of the grid. -/
def tilesAtIndices (idxs : List (Nat × Nat)) : List Tile :=
  idxs.map (fun p => Tile.mk p.1 p.2)

/-- The neighbour lists once `addNeighbors` has handled the rows below `row` and the
first `column` tiles of row `row`. -/
def neighborsUpTo (numRows numColumns row column : Nat) (t : Tile) : List Tile :=
  if t.column < numColumns ∧ (t.row < row ∨ (t.row = row ∧ t.column < column)) then
    tilesAtIndices (neighborIndices numRows numColumns t.row t.column)
  else []

/-- The board that `initialize` produces on accepted settings. -/
def builtBoard (numRows numColumns numMines : Nat) : GameBoard :=
  { emptyBoard with
    m_numRows := numRows, m_numColumns := numColumns, m_numMines := numMines,
    m_tiles := grid numRows numColumns,
    neighbors := neighborsUpTo numRows numColumns numRows 0,
    detonatedConnected := (grid numRows numColumns).flatten }

/-- The failure of an operation; none when it completed. -/
def failureOf {α : Type} : Except Failure α → Option Failure
  | .ok _ => none
  | .error e => some e

/-- Construction of a board followed by the first click on `firstClicked`. -/
def firstClick (shuffle : List Tile → List Tile) (numRows numColumns numMines : Nat)
    (firstClicked : Tile) : Except Failure (GameBoard × List Signal) :=
  match initializeBoard numRows numColumns numMines with
  | .error e => .error e
  | .ok b => placeMines shuffle b firstClicked

/-! ## Sample sessions -/

/-- A 3×3 session whose one mine lies at (0,2). -/
def minedBoard : GameBoard :=
  { builtBoard 3 3 1 with m_mines := [⟨0, 2⟩] }

/-- The session reached from the constructed 3×3 board with one mine by a first click
on (0,0) under the identity shuffle: the mine lies at (0,2). -/
def placedBoard : GameBoard :=
  { builtBoard 3 3 1 with
    m_tiles := grid 3 3 ++ List.replicate 3 [], m_mines := [⟨0, 2⟩] }

/-- The session `minedBoard` once its eight mine-free tiles are revealed. -/
def clearedBoard : GameBoard :=
  { minedBoard with
    m_revealedTiles := [⟨0, 0⟩, ⟨0, 1⟩, ⟨1, 0⟩, ⟨1, 1⟩, ⟨1, 2⟩, ⟨2, 0⟩, ⟨2, 1⟩, ⟨2, 2⟩] }

/-! ## Loops -/

/-- Invariant rule for `forUpTo`: an invariant that every iteration re-establishes
while completing holds after the loop, and the loop completes. -/
theorem forUpTo_inv {σ : Type} (Inv : Nat → σ → Prop) (n : Nat)
    (body : Nat → σ → Except Failure σ) (s : σ) (h0 : Inv 0 s)
    (hstep : ∀ i, i < n → ∀ s, Inv i s → ∃ s', body i s = .ok s' ∧ Inv (i + 1) s') :
    ∃ s', forUpTo n body s = .ok s' ∧ Inv n s' := by
  induction n with
  | zero => exact ⟨s, rfl, h0⟩
  | succ k ih =>
    obtain ⟨s1, h1, hinv⟩ := ih (fun i hi => hstep i (Nat.lt_succ_of_lt hi))
    obtain ⟨s2, h2, hinv2⟩ := hstep k (Nat.lt_succ_self k) s1 hinv
    exact ⟨s2, by simp only [forUpTo, h1, h2], hinv2⟩

/-! ## The grid -/

theorem gridRow_length (numColumns row : Nat) : (gridRow numColumns row).length = numColumns := by
  simp [gridRow]

theorem grid_length (numRows numColumns : Nat) : (grid numRows numColumns).length = numRows := by
  simp [grid]

theorem gridRow_succ (numColumns row : Nat) :
    gridRow (numColumns + 1) row = gridRow numColumns row ++ [Tile.mk row numColumns] := by
  simp [gridRow, List.range_succ]

theorem grid_succ (numRows numColumns : Nat) :
    grid (numRows + 1) numColumns = grid numRows numColumns ++ [gridRow numColumns numRows] := by
  simp [grid, List.range_succ]

theorem tileAt_grid_append (numRows numColumns row column : Nat) (extra : List (List Tile))
    (hr : row < numRows) (hc : column < numColumns) :
    tileAt (grid numRows numColumns ++ extra) row column = .ok (Tile.mk row column) := by
  have h1 : (grid numRows numColumns ++ extra)[row]? = some (gridRow numColumns row) := by
    rw [List.getElem?_append_left (by simpa [grid_length] using hr)]
    simp [grid, List.getElem?_map, List.getElem?_range hr]
  have h2 : (gridRow numColumns row)[column]? = some (Tile.mk row column) := by
    simp [gridRow, List.getElem?_map, List.getElem?_range hc]
  simp only [tileAt, h1, h2]

theorem tileAt_grid (numRows numColumns row column : Nat)
    (hr : row < numRows) (hc : column < numColumns) :
    tileAt (grid numRows numColumns) row column = .ok (Tile.mk row column) := by
  simpa using tileAt_grid_append numRows numColumns row column [] hr hc

theorem createTiles_row (numColumns row : Nat) (done : List (List Tile))
    (conn : List Tile) (hlen : done.length = row) :
    ∃ st, forUpTo numColumns (fun column st => createTile st row column)
        (done ++ [[]], conn) = .ok st ∧
      st = (done ++ [gridRow numColumns row], conn ++ gridRow numColumns row) := by
  apply forUpTo_inv (fun k st => st = (done ++ [gridRow k row], conn ++ gridRow k row))
  · simp [gridRow]
  · intro k _ st hk
    subst hk
    have h1 : (done ++ [gridRow k row])[row]? = some (gridRow k row) := by
      rw [List.getElem?_append_right (by omega)]
      simp [hlen]
    have h2 : appendTile (done ++ [gridRow k row]) row k
        = .ok (done ++ [gridRow (k + 1) row]) := by
      simp only [appendTile, h1]
      rw [gridRow_succ, ← hlen]
      simp
    have h3 : (done ++ [gridRow (k + 1) row])[row]? = some (gridRow (k + 1) row) := by
      rw [List.getElem?_append_right (by omega)]
      simp [hlen]
    have h4 : (gridRow (k + 1) row)[k]? = some (Tile.mk row k) := by
      simp [gridRow, List.getElem?_map, List.getElem?_range (Nat.lt_succ_self k)]
    have h5 : tileAt (done ++ [gridRow (k + 1) row]) row k = .ok (Tile.mk row k) := by
      simp only [tileAt, h3, h4]
    have h6 : createTile (done ++ [gridRow k row], conn ++ gridRow k row) row k
        = .ok (done ++ [gridRow (k + 1) row], conn ++ gridRow k row ++ [Tile.mk row k]) := by
      simp only [createTile, h2, h5]
    refine ⟨_, h6, ?_⟩
    rw [gridRow_succ, List.append_assoc]

theorem createTiles_loop (numRows numColumns : Nat) :
    ∃ st, forUpTo numRows (fun row st =>
        forUpTo numColumns (fun column st => createTile st row column)
          (st.1 ++ [[]], st.2)) ([], []) = .ok st ∧
      st = (grid numRows numColumns, (grid numRows numColumns).flatten) := by
  apply forUpTo_inv (fun r st => st = (grid r numColumns, (grid r numColumns).flatten))
  · simp [grid]
  · intro r _ st hr
    subst hr
    obtain ⟨t, ht, heq⟩ := createTiles_row numColumns r (grid r numColumns)
      (grid r numColumns).flatten (grid_length _ _)
    refine ⟨t, ht, ?_⟩
    rw [heq, grid_succ]
    simp

/-! ## Construction -/

theorem createTiles_eq (b : GameBoard) (hempty : b.m_tiles = [])
    (hconn : b.detonatedConnected = [])
    (hr : 0 < b.m_numRows) (hc : 0 < b.m_numColumns) :
    createTiles b = .ok { b with
      m_tiles := grid b.m_numRows b.m_numColumns,
      detonatedConnected := (grid b.m_numRows b.m_numColumns).flatten } := by
  obtain ⟨st, h1, h2⟩ := createTiles_loop b.m_numRows b.m_numColumns
  subst h2
  simp only [createTiles, hempty, hconn, h1, tileAt_grid _ _ 0 0 hr hc]

theorem usub_one (n : Nat) (h1 : 0 < n) (h2 : n < UINT_MOD) : usub n 1 = n - 1 := by
  simp only [usub, UINT_MOD] at *
  omega

theorem usub_one_le (n : Nat) (h1 : 0 < n) : usub n 1 ≤ n - 1 := by
  simp only [usub, UINT_MOD] at *
  omega

theorem neighborIndicesFrom_inRange (lastRow lastColumn row column numRows numColumns : Nat)
    (hlr : lastRow < numRows) (hlc : lastColumn < numColumns)
    (hr : row < numRows) (hc : column < numColumns) (p : Nat × Nat)
    (hp : p ∈ neighborIndicesFrom lastRow lastColumn row column) :
    p.1 < numRows ∧ p.2 < numColumns := by
  obtain ⟨a, b⟩ := p
  simp only [neighborIndicesFrom, List.mem_append, List.mem_ite_nil_right,
    List.mem_singleton, Prod.mk.injEq, ne_eq] at hp
  rcases hp with ((((((h | h) | h) | h) | h) | h) | h) | h <;> simp only [] <;> omega

theorem neighborIndices_inRange (numRows numColumns row column : Nat)
    (hr : row < numRows) (hc : column < numColumns) (p : Nat × Nat)
    (hp : p ∈ neighborIndices numRows numColumns row column) :
    p.1 < numRows ∧ p.2 < numColumns := by
  have h1 := usub_one_le numRows (by omega)
  have h2 := usub_one_le numColumns (by omega)
  exact neighborIndicesFrom_inRange (usub numRows 1) (usub numColumns 1) row column
    numRows numColumns (by omega) (by omega) hr hc p hp

theorem neighborIndicesFrom_length_le (lastRow lastColumn row column : Nat) :
    (neighborIndicesFrom lastRow lastColumn row column).length ≤ 8 := by
  simp only [neighborIndicesFrom, List.length_append]
  have h : ∀ (c : Prop) [Decidable c] (x : Nat × Nat),
      (if c then [x] else []).length ≤ 1 := by
    intro c _ x
    by_cases hc : c <;> simp [hc]
  have h1 := h (row ≠ 0 ∧ column ≠ 0) (row - 1, column - 1)
  have h2 := h (row ≠ 0) (row - 1, column)
  have h3 := h (row ≠ 0 ∧ column < lastColumn) (row - 1, column + 1)
  have h4 := h (column < lastColumn) (row, column + 1)
  have h5 := h (row < lastRow ∧ column < lastColumn) (row + 1, column + 1)
  have h6 := h (row < lastRow) (row + 1, column)
  have h7 := h (row < lastRow ∧ column ≠ 0) (row + 1, column - 1)
  have h8 := h (column ≠ 0) (row, column - 1)
  omega

theorem neighborIndices_length_le (numRows numColumns row column : Nat) :
    (neighborIndices numRows numColumns row column).length ≤ 8 :=
  neighborIndicesFrom_length_le _ _ _ _

theorem addNeighborsFrom_grid (tile : Tile) (numRows numColumns : Nat)
    (idxs : List (Nat × Nat)) (b : GameBoard)
    (hb : b.m_tiles = grid numRows numColumns)
    (hin : ∀ p ∈ idxs, p.1 < numRows ∧ p.2 < numColumns) :
    addNeighborsFrom tile idxs b = .ok { b with
      neighbors := fun t =>
        if t = tile then b.neighbors t ++ tilesAtIndices idxs else b.neighbors t } := by
  induction idxs generalizing b with
  | nil =>
    simp only [addNeighborsFrom, tilesAtIndices, List.map_nil, List.append_nil, ite_self]
  | cons p rest ih =>
    obtain ⟨r, c⟩ := p
    have hp := hin (r, c) (List.mem_cons_self _ _)
    have hlook : tileAt b.m_tiles r c = .ok (Tile.mk r c) := by
      rw [hb]; exact tileAt_grid _ _ _ _ hp.1 hp.2
    simp only [addNeighborsFrom, hlook]
    rw [ih (b.addNeighbor tile (Tile.mk r c)) hb
      (fun q hq => hin q (List.mem_cons_of_mem _ hq))]
    congr 2
    funext t
    by_cases ht : t = tile <;> simp [GameBoard.addNeighbor, ht, tilesAtIndices]

theorem neighborsUpTo_zero (numRows numColumns : Nat) :
    neighborsUpTo numRows numColumns 0 0 = fun _ => [] := by
  funext t
  simp [neighborsUpTo]

theorem neighborsUpTo_rowEnd (numRows numColumns row : Nat) :
    neighborsUpTo numRows numColumns row numColumns
      = neighborsUpTo numRows numColumns (row + 1) 0 := by
  funext t
  have h : (t.column < numColumns ∧ (t.row < row ∨ (t.row = row ∧ t.column < numColumns)))
      ↔ (t.column < numColumns ∧ (t.row < row + 1 ∨ (t.row = row + 1 ∧ t.column < 0))) := by
    omega
  exact if_congr h rfl rfl

theorem neighborsUpTo_step (numRows numColumns row column : Nat) (hc : column < numColumns) :
    (fun t => if t = Tile.mk row column
        then neighborsUpTo numRows numColumns row column t
          ++ tilesAtIndices (neighborIndices numRows numColumns row column)
        else neighborsUpTo numRows numColumns row column t)
      = neighborsUpTo numRows numColumns row (column + 1) := by
  funext t
  by_cases ht : t = Tile.mk row column
  · subst ht
    simp [neighborsUpTo, hc]
  · have hne : ¬ (t.row = row ∧ t.column = column) := by
      intro h
      apply ht
      cases t
      simp_all
    have h : (t.column < numColumns ∧ (t.row < row ∨ (t.row = row ∧ t.column < column)))
        ↔ (t.column < numColumns ∧ (t.row < row ∨ (t.row = row ∧ t.column < column + 1))) := by
      omega
    simp only [ht, if_false]
    exact if_congr h rfl rfl

theorem addNeighbors_eq (b : GameBoard)
    (htiles : b.m_tiles = grid b.m_numRows b.m_numColumns)
    (hnb : b.neighbors = fun _ => []) :
    addNeighbors b = .ok { b with
      neighbors := neighborsUpTo b.m_numRows b.m_numColumns b.m_numRows 0 } := by
  obtain ⟨b', h1, h2⟩ := forUpTo_inv
    (fun r (s : GameBoard) => s = { b with
      neighbors := neighborsUpTo b.m_numRows b.m_numColumns r 0 })
    b.m_numRows
    (fun row b =>
      forUpTo b.m_numColumns (fun column b =>
        match tileAt b.m_tiles row column with
        | .error e => .error e
        | .ok tile =>
          addNeighborsFrom tile (neighborIndices b.m_numRows b.m_numColumns row column) b) b)
    b
    (by
      show b = { b with neighbors := neighborsUpTo b.m_numRows b.m_numColumns 0 0 }
      rw [neighborsUpTo_zero, ← hnb])
    (by
      intro r hr s hs
      subst hs
      obtain ⟨s', h3, h4⟩ := forUpTo_inv
        (fun k (s : GameBoard) => s = { b with
          neighbors := neighborsUpTo b.m_numRows b.m_numColumns r k })
        b.m_numColumns
        (fun column b =>
          match tileAt b.m_tiles r column with
          | .error e => .error e
          | .ok tile =>
            addNeighborsFrom tile (neighborIndices b.m_numRows b.m_numColumns r column) b)
        { b with neighbors := neighborsUpTo b.m_numRows b.m_numColumns r 0 }
        rfl
        (by
          intro k hk s hs
          subst hs
          refine ⟨_, ?_, rfl⟩
          have hlook : tileAt b.m_tiles r k = .ok (Tile.mk r k) := by
            rw [htiles]; exact tileAt_grid _ _ _ _ hr hk
          have hadd := addNeighborsFrom_grid (Tile.mk r k) b.m_numRows b.m_numColumns
            (neighborIndices b.m_numRows b.m_numColumns r k)
            { b with neighbors := neighborsUpTo b.m_numRows b.m_numColumns r k } htiles
            (neighborIndices_inRange _ _ _ _ hr hk)
          simp only [hlook]
          rw [hadd]
          simp only [neighborsUpTo_step _ _ _ _ hk])
      refine ⟨s', h3, ?_⟩
      rw [h4, neighborsUpTo_rowEnd])
  rw [← h2]
  exact h1

theorem umul_pos_left (a b : Nat) (h : 0 < umul a b) : 0 < a := by
  rcases Nat.eq_zero_or_pos a with h0 | h0
  · subst h0; simp [umul] at h
  · exact h0

theorem umul_pos_right (a b : Nat) (h : 0 < umul a b) : 0 < b := by
  rcases Nat.eq_zero_or_pos b with h0 | h0
  · subst h0; simp [umul] at h
  · exact h0

theorem buildGrid_eq (numRows numColumns numMines : Nat)
    (hr : 0 < numRows) (hc : 0 < numColumns) :
    buildGrid numRows numColumns numMines = .ok (builtBoard numRows numColumns numMines) := by
  unfold buildGrid
  rw [createTiles_eq (applySettings numRows numColumns numMines) rfl rfl hr hc]
  simp only []
  rw [addNeighbors_eq _ rfl rfl]
  rfl

theorem initializeBoard_eq (numRows numColumns numMines : Nat)
    (hvalid : validMineCount numRows numColumns numMines = true) :
    initializeBoard numRows numColumns numMines
      = .ok (builtBoard numRows numColumns numMines) := by
  have hlt : numMines < umul numRows numColumns := by
    simpa [validMineCount] using hvalid
  have hpos : 0 < umul numRows numColumns := by omega
  have hr : 0 < numRows := umul_pos_left numRows numColumns hpos
  have hc : 0 < numColumns := umul_pos_right numRows numColumns hpos
  simp only [initializeBoard, hvalid, Bool.not_true, Bool.false_eq_true, if_false]
  exact buildGrid_eq numRows numColumns numMines hr hc

/-! ## The index pairs read by `addNeighbors` -/

theorem neighborIndicesFrom_mem (lastRow lastColumn row column : Nat)
    (hr : row ≤ lastRow) (hc : column ≤ lastColumn) (p : Nat × Nat) :
    p ∈ neighborIndicesFrom lastRow lastColumn row column ↔
      (p ≠ (row, column) ∧ p.1 ≤ lastRow ∧ p.2 ≤ lastColumn ∧
        (p.1 ≤ row + 1 ∧ row ≤ p.1 + 1) ∧ (p.2 ≤ column + 1 ∧ column ≤ p.2 + 1)) := by
  obtain ⟨a, b⟩ := p
  simp only [neighborIndicesFrom, List.mem_append, List.mem_ite_nil_right,
    List.mem_singleton, Prod.mk.injEq, ne_eq]
  constructor
  · rintro (((((((h | h) | h) | h) | h) | h) | h) | h) <;> omega
  · rintro ⟨hne, h1, h2, h3, h4⟩
    have hA : (a + 1 = row) ∨ a = row ∨ (a = row + 1 ∧ row < lastRow) := by omega
    have hB : (b + 1 = column) ∨ b = column ∨ (b = column + 1 ∧ column < lastColumn) := by
      omega
    rcases hA with hA | hA | ⟨hA, hA'⟩ <;> rcases hB with hB | hB | ⟨hB, hB'⟩ <;>
      subst hA <;> subst hB
    · simp
    · simp
    · simp [hB']
    · simp
    · simp at hne
    · simp [hB']
    · simp [hA']
    · simp [hA']
    · simp [hA', hB']

theorem nodup_append_ite {α : Type} (l : List α) (c : Prop) [Decidable c] (x : α)
    (hl : l.Nodup) (hx : c → x ∉ l) : (l ++ if c then [x] else []).Nodup := by
  by_cases hc : c
  · simp only [hc, if_true]
    exact List.Nodup.append hl (List.nodup_singleton x)
      (by
        intro a ha hb
        rw [List.mem_singleton] at hb
        subst hb
        exact hx hc ha)
  · simpa [hc] using hl

theorem nodup_ite {α : Type} (c : Prop) [Decidable c] (x : α) :
    (if c then [x] else []).Nodup := by
  by_cases hc : c <;> simp [hc]

theorem neighborIndicesFrom_nodup (lastRow lastColumn row column : Nat) :
    (neighborIndicesFrom lastRow lastColumn row column).Nodup := by
  unfold neighborIndicesFrom
  refine nodup_append_ite _ _ _ (nodup_append_ite _ _ _ (nodup_append_ite _ _ _
    (nodup_append_ite _ _ _ (nodup_append_ite _ _ _ (nodup_append_ite _ _ _
    (nodup_append_ite _ _ _ (nodup_ite _ _) ?_) ?_) ?_) ?_) ?_) ?_) ?_ <;>
  · intro hc hmem
    simp only [List.mem_append, List.mem_ite_nil_right, List.mem_singleton, Prod.mk.injEq,
      ne_eq] at hmem
    omega

theorem neighborIndicesFrom_length (lastRow lastColumn row column : Nat)
    (hlr : 1 ≤ lastRow) (hlc : 1 ≤ lastColumn)
    (hr : row ≤ lastRow) (hc : column ≤ lastColumn) :
    (neighborIndicesFrom lastRow lastColumn row column).length =
      if (row = 0 ∨ row = lastRow) ∧ (column = 0 ∨ column = lastColumn) then 3
      else if (row = 0 ∨ row = lastRow) ∨ (column = 0 ∨ column = lastColumn) then 5
      else 8 := by
  have hrow : row = 0 ∨ row = lastRow ∨ (row ≠ 0 ∧ row < lastRow) := by omega
  have hcol : column = 0 ∨ column = lastColumn ∨ (column ≠ 0 ∧ column < lastColumn) := by
    omega
  rcases hrow with h1 | h1 | ⟨h1, h1'⟩ <;> rcases hcol with h2 | h2 | ⟨h2, h2'⟩
  · subst h1; subst h2
    have e1 : 0 < lastRow := hlr
    have e2 : 0 < lastColumn := hlc
    simp [neighborIndicesFrom, e1, e2]
  · subst h1; subst h2
    have e1 : 0 < lastRow := hlr
    have e2 : column ≠ 0 := by omega
    simp [neighborIndicesFrom, e1, e2]
  · subst h1
    have e1 : 0 < lastRow := hlr
    have e2 : column ≠ lastColumn := by omega
    simp [neighborIndicesFrom, e1, e2, h2, h2']
  · subst h1; subst h2
    have e1 : row ≠ 0 := by omega
    have e2 : 0 < lastColumn := hlc
    simp [neighborIndicesFrom, e1, e2]
  · subst h1; subst h2
    have e1 : row ≠ 0 := by omega
    have e2 : column ≠ 0 := by omega
    simp [neighborIndicesFrom, e1, e2]
  · subst h1
    have e1 : row ≠ 0 := by omega
    have e2 : column ≠ lastColumn := by omega
    simp [neighborIndicesFrom, e1, e2, h2, h2']
  · subst h2
    have e1 : row ≠ lastRow := by omega
    have e2 : 0 < lastColumn := hlc
    simp [neighborIndicesFrom, e1, e2, h1, h1']
  · subst h2
    have e1 : row ≠ lastRow := by omega
    have e2 : column ≠ 0 := by omega
    simp [neighborIndicesFrom, e1, e2, h1, h1']
  · have e1 : row ≠ lastRow := by omega
    have e2 : column ≠ lastColumn := by omega
    simp [neighborIndicesFrom, e1, e2, h1, h1', h2, h2']

theorem tilesAtIndices_mem (idxs : List (Nat × Nat)) (t : Tile) :
    t ∈ tilesAtIndices idxs ↔ (t.row, t.column) ∈ idxs := by
  simp only [tilesAtIndices, List.mem_map]
  constructor
  · rintro ⟨p, hp, rfl⟩
    exact hp
  · intro h
    exact ⟨(t.row, t.column), h, rfl⟩

theorem tilesAtIndices_nodup (idxs : List (Nat × Nat)) (h : idxs.Nodup) :
    (tilesAtIndices idxs).Nodup := by
  apply List.Nodup.map _ h
  intro p q hpq
  simp only [Tile.mk.injEq] at hpq
  exact Prod.ext hpq.1 hpq.2

theorem tilesAtIndices_length (idxs : List (Nat × Nat)) :
    (tilesAtIndices idxs).length = idxs.length := by
  simp [tilesAtIndices]

/-- The neighbour list of an in-grid tile of the built board. -/
theorem builtBoard_neighbors (numRows numColumns numMines : Nat) (t : Tile)
    (ht : inGrid numRows numColumns t) :
    (builtBoard numRows numColumns numMines).neighbors t
      = tilesAtIndices (neighborIndices numRows numColumns t.row t.column) := by
  obtain ⟨h1, h2⟩ := ht
  simp only [builtBoard, neighborsUpTo, h1, h2, true_or, and_self, if_true]

/-! ## Sets of tiles -/

theorem qsetInsert_mem (s : List Tile) (t x : Tile) :
    x ∈ qsetInsert s t ↔ x ∈ s ∨ x = t := by
  unfold qsetInsert
  by_cases h : t ∈ s
  · simp only [h, if_true]
    constructor
    · intro hx; exact Or.inl hx
    · rintro (hx | hx)
      · exact hx
      · subst hx; exact h
  · simp [h]

theorem qsetInsert_nodup (s : List Tile) (t : Tile) (hs : s.Nodup) :
    (qsetInsert s t).Nodup := by
  unfold qsetInsert
  by_cases h : t ∈ s
  · simpa [h] using hs
  · simp only [h, if_false]
    exact List.Nodup.append hs (List.nodup_singleton t)
      (by
        intro a ha hb
        rw [List.mem_singleton] at hb
        subst hb
        exact h ha)

theorem qsetInsert_length_le (s : List Tile) (t : Tile) :
    (qsetInsert s t).length ≤ s.length + 1 := by
  unfold qsetInsert
  by_cases h : t ∈ s <;> simp [h]

theorem foldl_qsetInsert_mem (l s : List Tile) (x : Tile) :
    x ∈ l.foldl qsetInsert s ↔ x ∈ s ∨ x ∈ l := by
  induction l generalizing s with
  | nil => simp
  | cons a l ih =>
    simp only [List.foldl_cons, ih, qsetInsert_mem, List.mem_cons]
    tauto

theorem foldl_qsetInsert_length_le (l s : List Tile) :
    (l.foldl qsetInsert s).length ≤ s.length + l.length := by
  induction l generalizing s with
  | nil => simp
  | cons a l ih =>
    have h1 := ih (qsetInsert s a)
    have h2 := qsetInsert_length_le s a
    simp only [List.foldl_cons, List.length_cons]
    omega

theorem doneUse_mem (b : GameBoard) (firstClicked x : Tile) :
    x ∈ doneUse b firstClicked ↔ x = firstClicked ∨ x ∈ b.neighbors firstClicked := by
  simp [doneUse, foldl_qsetInsert_mem, qsetInsert_mem]

theorem doneUse_length_le (b : GameBoard) (firstClicked : Tile) :
    (doneUse b firstClicked).length ≤ 1 + (b.neighbors firstClicked).length := by
  have h1 := foldl_qsetInsert_length_le (b.neighbors firstClicked) (qsetInsert [] firstClicked)
  have h2 := qsetInsert_length_le [] firstClicked
  simp only [List.length_nil] at h2
  unfold doneUse
  omega

/-! ## All tiles of the grid -/

theorem gridRow_mem (numColumns row : Nat) (t : Tile) :
    t ∈ gridRow numColumns row ↔ t.row = row ∧ t.column < numColumns := by
  simp only [gridRow, List.mem_map, List.mem_range]
  constructor
  · rintro ⟨c, hc, rfl⟩
    exact ⟨rfl, hc⟩
  · rintro ⟨h1, h2⟩
    exact ⟨t.column, h2, by cases t; simp_all⟩

theorem gridRow_nodup (numColumns row : Nat) : (gridRow numColumns row).Nodup := by
  apply List.Nodup.map _ (List.nodup_range numColumns)
  intro a b hab
  simpa using hab

theorem grid_flatten_succ (numRows numColumns : Nat) :
    (grid (numRows + 1) numColumns).flatten
      = (grid numRows numColumns).flatten ++ gridRow numColumns numRows := by
  rw [grid_succ]
  simp

theorem grid_flatten_mem (numRows numColumns : Nat) (t : Tile) :
    t ∈ (grid numRows numColumns).flatten ↔ inGrid numRows numColumns t := by
  induction numRows with
  | zero => simp [grid, inGrid]
  | succ n ih =>
    rw [grid_flatten_succ, List.mem_append, ih, gridRow_mem]
    unfold inGrid
    omega

theorem grid_flatten_nodup (numRows numColumns : Nat) :
    (grid numRows numColumns).flatten.Nodup := by
  induction numRows with
  | zero => simp [grid]
  | succ n ih =>
    rw [grid_flatten_succ]
    refine List.Nodup.append ih (gridRow_nodup _ _) ?_
    intro t h1 h2
    rw [grid_flatten_mem] at h1
    rw [gridRow_mem] at h2
    unfold inGrid at h1
    omega

theorem grid_flatten_length (numRows numColumns : Nat) :
    (grid numRows numColumns).flatten.length = numRows * numColumns := by
  induction numRows with
  | zero => simp [grid]
  | succ n ih =>
    rw [grid_flatten_succ, List.length_append, ih, gridRow_length, Nat.succ_mul]

/-! ## Mine placement -/

/-- The candidate list built by the loops of `placeMines` on a board whose tiles are
the grid: the tiles outside `doneUse`, row by row. -/
theorem collectCandidates_eq (b : GameBoard) (firstClicked : Tile)
    (htiles : b.m_tiles = grid b.m_numRows b.m_numColumns) :
    collectCandidates b firstClicked = .ok
      (b.m_tiles ++ List.replicate b.m_numRows [],
       (allTiles b).filter (fun t => !(doneUse b firstClicked).contains t)) := by
  obtain ⟨st, h1, h2⟩ := forUpTo_inv
    (fun r (st : List (List Tile) × List Tile) => st =
      (b.m_tiles ++ List.replicate r [],
       ((grid r b.m_numColumns).flatten).filter
         (fun t => !(doneUse b firstClicked).contains t)))
    b.m_numRows
    (fun row st =>
      forUpTo b.m_numColumns (fun column st =>
        match tileAt st.1 row column with
        | .error e => .error e
        | .ok tile =>
          .ok (st.1, if (doneUse b firstClicked).contains tile then st.2 else st.2 ++ [tile]))
        (st.1 ++ [[]], st.2))
    (b.m_tiles, [])
    (by simp [grid])
    (by
      intro r hr st hst
      subst hst
      obtain ⟨st', h3, h4⟩ := forUpTo_inv
        (fun k (st : List (List Tile) × List Tile) => st =
          (b.m_tiles ++ List.replicate (r + 1) [],
           ((grid r b.m_numColumns).flatten).filter
              (fun t => !(doneUse b firstClicked).contains t)
            ++ (gridRow k r).filter (fun t => !(doneUse b firstClicked).contains t)))
        b.m_numColumns
        (fun column st =>
          match tileAt st.1 r column with
          | .error e => .error e
          | .ok tile =>
            .ok (st.1,
              if (doneUse b firstClicked).contains tile then st.2 else st.2 ++ [tile]))
        ((b.m_tiles ++ List.replicate r []) ++ [[]],
          ((grid r b.m_numColumns).flatten).filter
            (fun t => !(doneUse b firstClicked).contains t))
        (by simp [gridRow, List.replicate_succ'])
        (by
          intro k hk st hst
          subst hst
          have hlook : tileAt (b.m_tiles ++ List.replicate (r + 1) []) r k
              = .ok (Tile.mk r k) := by
            rw [htiles]; exact tileAt_grid_append _ _ _ _ _ hr hk
          refine ⟨_, by simp only [hlook]; rfl, ?_⟩
          simp only []
          rw [gridRow_succ, List.filter_append]
          by_cases hd : (doneUse b firstClicked).contains (Tile.mk r k) = true
          · have hf : List.filter (fun t => !(doneUse b firstClicked).contains t)
                [Tile.mk r k] = [] := by
              simp only [List.filter, hd, Bool.not_true]
            rw [if_pos hd, hf, List.append_nil]
          · have hf : List.filter (fun t => !(doneUse b firstClicked).contains t)
                [Tile.mk r k] = [Tile.mk r k] := by
              simp only [Bool.not_eq_true] at hd
              simp only [List.filter, hd, Bool.not_false]
            rw [if_neg hd, hf, List.append_assoc])
      refine ⟨st', h3, ?_⟩
      simp only []
      rw [h4, grid_flatten_succ, List.filter_append])
  have h1' : collectCandidates b firstClicked = .ok st := h1
  rw [h1', h2, allTiles, htiles]

/-- The placement loop on a duplicate-free list with enough entries mines its
first `numMines` entries. -/
theorem mineLoop_eq (tiles : List Tile) (numMines : Nat) (hnd : tiles.Nodup)
    (hlen : numMines ≤ tiles.length) :
    mineLoop tiles numMines [] = .ok (tiles.take numMines) := by
  obtain ⟨m, h1, h2⟩ := forUpTo_inv
    (fun i (mines : List Tile) => mines = tiles.take i)
    numMines
    (fun i mines =>
      match tiles[i]? with
      | none => .error .outOfRange
      | some t => .ok (qsetInsert mines t))
    []
    (by simp)
    (by
      intro i hi mines hm
      subst hm
      have hi' : i < tiles.length := by omega
      have hget : tiles[i]? = some tiles[i] := List.getElem?_eq_getElem hi'
      refine ⟨_, by simp only [hget]; rfl, ?_⟩
      simp only []
      have htake : tiles.take (i + 1) = tiles.take i ++ [tiles[i]] := by
        rw [List.take_succ, hget]; rfl
      have hnd' : (tiles.take (i + 1)).Nodup := List.Nodup.sublist (List.take_sublist _ _) hnd
      rw [htake] at hnd'
      have hnot : tiles[i] ∉ tiles.take i := by
        intro hmem
        have := (List.nodup_append.mp hnd').2.2
        exact this hmem (List.mem_singleton_self _)
      rw [htake]
      simp [qsetInsert, hnot])
  have h1' : mineLoop tiles numMines [] = .ok m := h1
  rw [h1', h2]

theorem candidates_eq_pool (b : GameBoard) (firstClicked : Tile) :
    (allTiles b).filter (fun t => !(doneUse b firstClicked).contains t)
      = candidatePool b firstClicked := by
  unfold candidatePool
  apply List.filter_congr
  intro t _
  have h := doneUse_mem b firstClicked t
  by_cases hm : t ∈ doneUse b firstClicked
  · have h' := h.mp hm
    have hc : (doneUse b firstClicked).contains t = true := List.elem_iff.mpr hm
    rw [hc]
    simp only [Bool.not_true]
    symm
    rw [decide_eq_false_iff_not]
    rintro ⟨h1, h2⟩
    rcases h' with h' | h'
    · exact h1 h'
    · exact h2 h'
  · have hc : (doneUse b firstClicked).contains t = false := by
      rw [← Bool.not_eq_true]
      intro hc
      exact hm (List.elem_iff.mp hc)
    rw [hc]
    simp only [Bool.not_false]
    symm
    rw [decide_eq_true_iff]
    constructor
    · intro h1
      exact hm (h.mpr (Or.inl h1))
    · intro h2
      exact hm (h.mpr (Or.inr h2))

theorem candidatePool_mem (b : GameBoard) (firstClicked t : Tile) :
    t ∈ candidatePool b firstClicked ↔
      t ∈ allTiles b ∧ t ≠ firstClicked ∧ t ∉ b.neighbors firstClicked := by
  simp [candidatePool]

theorem candidatePool_nodup (b : GameBoard) (firstClicked : Tile)
    (hnd : (allTiles b).Nodup) : (candidatePool b firstClicked).Nodup :=
  List.Nodup.filter _ hnd

/-- At most the first-clicked tile and its neighbours are missing from the pool. -/
theorem candidatePool_length (b : GameBoard) (firstClicked : Tile)
    (hnd : (allTiles b).Nodup) :
    (allTiles b).length
      ≤ (candidatePool b firstClicked).length + 1 + (b.neighbors firstClicked).length := by
  have h1 := @List.length_eq_length_filter_add _ (allTiles b)
    (fun t => !(doneUse b firstClicked).contains t)
  rw [candidates_eq_pool] at h1
  have h2 : (List.filter (fun x => !!(doneUse b firstClicked).contains x)
      (allTiles b)).length ≤ (doneUse b firstClicked).length := by
    apply List.Subperm.length_le
    apply List.subperm_of_subset (List.Nodup.filter _ hnd)
    intro t ht
    rw [List.mem_filter] at ht
    have hc : (doneUse b firstClicked).contains t = true := by
      simpa using ht.2
    exact List.elem_iff.mp hc
  have h3 := doneUse_length_le b firstClicked
  omega

theorem builtBoard_neighbors_length_le (numRows numColumns numMines : Nat) (t : Tile) :
    ((builtBoard numRows numColumns numMines).neighbors t).length ≤ 8 := by
  simp only [builtBoard, neighborsUpTo]
  split
  · rw [tilesAtIndices_length]
    exact neighborIndices_length_le _ _ _ _
  · simp

theorem builtBoard_pool_length (numRows numColumns numMines : Nat) (firstClicked : Tile) :
    numRows * numColumns
      ≤ (candidatePool (builtBoard numRows numColumns numMines) firstClicked).length + 9 := by
  have h1 := candidatePool_length (builtBoard numRows numColumns numMines) firstClicked
    (grid_flatten_nodup numRows numColumns)
  have h2 := builtBoard_neighbors_length_le numRows numColumns numMines firstClicked
  have h3 : (allTiles (builtBoard numRows numColumns numMines)).length
      = numRows * numColumns := grid_flatten_length numRows numColumns
  omega

/-- The first click on a freshly built board, when the pool has room for the mines:
the mines are the first `numMines` tiles of the shuffled pool. -/
theorem placeMines_builtBoard (shuffle : List Tile → List Tile)
    (hperm : ∀ l, (shuffle l).Perm l) (numRows numColumns numMines : Nat)
    (firstClicked : Tile)
    (hroom : numMines
      ≤ (candidatePool (builtBoard numRows numColumns numMines) firstClicked).length) :
    placeMines shuffle (builtBoard numRows numColumns numMines) firstClicked = .ok
      ({ builtBoard numRows numColumns numMines with
          m_tiles := grid numRows numColumns ++ List.replicate numRows [],
          m_mines := (shuffle (candidatePool (builtBoard numRows numColumns numMines)
            firstClicked)).take numMines },
        [Signal.initialized]) := by
  have hc := collectCandidates_eq (builtBoard numRows numColumns numMines) firstClicked rfl
  rw [candidates_eq_pool] at hc
  have hnd : (shuffle (candidatePool (builtBoard numRows numColumns numMines)
      firstClicked)).Nodup :=
    (List.Perm.nodup_iff (hperm _)).mpr
      (candidatePool_nodup _ _ (grid_flatten_nodup numRows numColumns))
  have hlen : numMines ≤ (shuffle (candidatePool (builtBoard numRows numColumns numMines)
      firstClicked)).length := by
    rw [List.Perm.length_eq (hperm _)]
    exact hroom
  have hm := mineLoop_eq _ numMines hnd hlen
  have hm' : mineLoop (shuffle (candidatePool (builtBoard numRows numColumns numMines)
      firstClicked)) (builtBoard numRows numColumns numMines).m_numMines
      (builtBoard numRows numColumns numMines).m_mines = .ok
        ((shuffle (candidatePool (builtBoard numRows numColumns numMines)
          firstClicked)).take numMines) := hm
  simp only [placeMines, hc, hm']
  rfl

/-! ## Construction: the mine-count check -/

/-- Construction throws whenever `mineCount >= rows * columns`, for 32-bit inputs. -/
theorem initializeBoard_rejects (numRows numColumns numMines : Nat)
    (hM : numMines < UINT_MOD) (h : numRows * numColumns ≤ numMines) :
    initializeBoard numRows numColumns numMines = .error Failure.invalidArgument := by
  have hlt : numRows * numColumns < UINT_MOD := by omega
  have hv : validMineCount numRows numColumns numMines = false := by
    simp only [validMineCount, umul, Nat.mod_eq_of_lt hlt, decide_eq_false_iff_not]
    omega
  simp only [initializeBoard, hv, Bool.not_false, if_true]

/-- Construction succeeds at `mineCount = rows * columns - 1` when the cell count
fits in 32 bits. -/
theorem initializeBoard_accepts (numRows numColumns numMines : Nat)
    (hfit : numRows * numColumns < UINT_MOD) (h : numMines + 1 = numRows * numColumns) :
    initializeBoard numRows numColumns numMines
      = .ok (builtBoard numRows numColumns numMines) := by
  apply initializeBoard_eq
  simp only [validMineCount, umul, Nat.mod_eq_of_lt hfit, decide_eq_true_eq]
  omega

/-- C3: at `rows = columns = 65536` and `mineCount = 4294967295 = rows * columns - 1`
(all 32-bit values) the product wraps to 0 in `validMineCount`, so construction
throws although the claim says it succeeds. -/
theorem C3_product_wraps :
    65536 < UINT_MOD ∧ 4294967295 < UINT_MOD ∧ 4294967295 + 1 = 65536 * 65536 ∧
    validMineCount 65536 65536 4294967295 = false ∧
    failureOf (initializeBoard 65536 65536 4294967295) = some Failure.invalidArgument := by
  decide

/-- C4: for every mine count, `initialize` throws when `rows < 1` or `columns < 1`,
and no tile is created. -/
theorem C4_invalid_dimensions (numRows numColumns numMines : Nat)
    (h : numRows < 1 ∨ numColumns < 1) :
    initializeBoard numRows numColumns numMines = .error Failure.invalidArgument ∧
    tilesOf (initializeBoard numRows numColumns numMines) = [] := by
  have hz : numRows * numColumns = 0 := by
    rcases h with h | h
    · have : numRows = 0 := by omega
      subst this; simp
    · have : numColumns = 0 := by omega
      subst this; simp
  have hv : validMineCount numRows numColumns numMines = false := by
    simp [validMineCount, umul, hz]
  have he : initializeBoard numRows numColumns numMines = .error Failure.invalidArgument := by
    simp only [initializeBoard, hv, Bool.not_false, if_true]
  exact ⟨he, by rw [he]; rfl⟩

theorem C4_invalid_dimensions_witness :
    (0 < 1 ∨ 5 < 1) ∧
    initializeBoard 0 5 3 = .error Failure.invalidArgument ∧
    tilesOf (initializeBoard 0 5 3) = [] :=
  ⟨by decide, C4_invalid_dimensions 0 5 3 (by decide)⟩

/-! ## The neighbour graph -/

/-- C5: on every grid with at least two rows and two columns, `addNeighbors`
completes and leaves a corner tile with 3 neighbours, a tile on exactly one grid
edge with 5, and an interior tile with 8. -/
theorem C5_neighbor_counts (numRows numColumns numMines : Nat)
    (hR : numRows < UINT_MOD) (hC : numColumns < UINT_MOD)
    (hR2 : 2 ≤ numRows) (hC2 : 2 ≤ numColumns) :
    ∃ b, buildGrid numRows numColumns numMines = .ok b ∧
      ∀ t, inGrid numRows numColumns t →
        (onRowEdge numRows t ∧ onColumnEdge numColumns t → (b.neighbors t).length = 3) ∧
        ((onRowEdge numRows t ∧ ¬ onColumnEdge numColumns t) ∨
          (¬ onRowEdge numRows t ∧ onColumnEdge numColumns t) →
            (b.neighbors t).length = 5) ∧
        (¬ onRowEdge numRows t ∧ ¬ onColumnEdge numColumns t →
          (b.neighbors t).length = 8) := by
  refine ⟨builtBoard numRows numColumns numMines,
    buildGrid_eq numRows numColumns numMines (by omega) (by omega), ?_⟩
  intro t ht
  rw [builtBoard_neighbors _ _ _ t ht, tilesAtIndices_length]
  obtain ⟨h1, h2⟩ := ht
  have e1 := usub_one numRows (by omega) hR
  have e2 := usub_one numColumns (by omega) hC
  have hlen := neighborIndicesFrom_length (numRows - 1) (numColumns - 1) t.row t.column
    (by omega) (by omega) (by omega) (by omega)
  unfold neighborIndices
  rw [e1, e2, hlen]
  unfold onRowEdge onColumnEdge
  refine ⟨?_, ?_, ?_⟩
  · intro h
    rw [if_pos (by omega)]
  · intro h
    rw [if_neg (by omega), if_pos (by omega)]
  · intro h
    rw [if_neg (by omega), if_neg (by omega)]

theorem C5_neighbor_counts_witness :
    5 < UINT_MOD ∧ 5 < UINT_MOD ∧ 2 ≤ 5 ∧ 2 ≤ 5 ∧
    ∃ b, buildGrid 5 5 3 = .ok b ∧
      ∀ t, inGrid 5 5 t →
        (onRowEdge 5 t ∧ onColumnEdge 5 t → (b.neighbors t).length = 3) ∧
        ((onRowEdge 5 t ∧ ¬ onColumnEdge 5 t) ∨ (¬ onRowEdge 5 t ∧ onColumnEdge 5 t) →
            (b.neighbors t).length = 5) ∧
        (¬ onRowEdge 5 t ∧ ¬ onColumnEdge 5 t → (b.neighbors t).length = 8) :=
  ⟨by decide, by decide, by decide, by decide,
    C5_neighbor_counts 5 5 3 (by decide) (by decide) (by decide) (by decide)⟩

/-- Membership in the neighbour list of the built board is adjacency. -/
theorem builtBoard_neighbors_mem (numRows numColumns numMines : Nat)
    (hR : numRows < UINT_MOD) (hC : numColumns < UINT_MOD)
    (a b : Tile) (ha : inGrid numRows numColumns a) (hb : inGrid numRows numColumns b) :
    b ∈ (builtBoard numRows numColumns numMines).neighbors a ↔ adjacent a b := by
  rw [builtBoard_neighbors _ _ _ a ha, tilesAtIndices_mem]
  obtain ⟨h1, h2⟩ := ha
  obtain ⟨h3, h4⟩ := hb
  have e1 := usub_one numRows (by omega) hR
  have e2 := usub_one numColumns (by omega) hC
  unfold neighborIndices
  rw [e1, e2, neighborIndicesFrom_mem _ _ _ _ (by omega) (by omega)]
  unfold adjacent
  have hne : (b.row, b.column) ≠ (a.row, a.column) ↔ a ≠ b := by
    constructor
    · intro h hab
      subst hab
      exact h rfl
    · intro h hp
      apply h
      cases a
      cases b
      simp_all
  rw [hne]
  constructor
  · rintro ⟨g1, g2, g3, g4, g5⟩
    exact ⟨g1, ⟨by omega, by omega⟩, ⟨by omega, by omega⟩⟩
  · rintro ⟨g1, g2, g3⟩
    exact ⟨g1, by omega, by omega, by omega, by omega⟩

/-- C8: on every grid with at least one row and one column, `addNeighbors`
completes (no index leaves the grid), every index pair it reads lies in the grid,
tile `b` occurs in the neighbour list of tile `a` exactly once when the two are
adjacent and not at all otherwise, and the relation is symmetric. -/
theorem C8_neighbor_relation (numRows numColumns numMines : Nat)
    (hR : numRows < UINT_MOD) (hC : numColumns < UINT_MOD)
    (hR1 : 1 ≤ numRows) (hC1 : 1 ≤ numColumns) :
    ∃ g, buildGrid numRows numColumns numMines = .ok g ∧
      (∀ a, inGrid numRows numColumns a →
        ∀ p ∈ neighborIndices numRows numColumns a.row a.column,
          p.1 < numRows ∧ p.2 < numColumns) ∧
      (∀ a b, inGrid numRows numColumns a → inGrid numRows numColumns b →
        (g.neighbors a).count b = if adjacent a b then 1 else 0) ∧
      (∀ a b, inGrid numRows numColumns a → inGrid numRows numColumns b →
        (b ∈ g.neighbors a ↔ a ∈ g.neighbors b)) := by
  refine ⟨builtBoard numRows numColumns numMines,
    buildGrid_eq numRows numColumns numMines (by omega) (by omega), ?_, ?_, ?_⟩
  · intro a ha p hp
    exact neighborIndices_inRange _ _ _ _ ha.1 ha.2 p hp
  · intro a b ha hb
    have hmem := builtBoard_neighbors_mem numRows numColumns numMines hR hC a b ha hb
    have hnd : ((builtBoard numRows numColumns numMines).neighbors a).Nodup := by
      rw [builtBoard_neighbors _ _ _ a ha]
      exact tilesAtIndices_nodup _ (neighborIndicesFrom_nodup _ _ _ _)
    by_cases hadj : adjacent a b
    · rw [if_pos hadj]
      exact List.count_eq_one_of_mem hnd (hmem.mpr hadj)
    · rw [if_neg hadj]
      exact List.count_eq_zero_of_not_mem (fun h => hadj (hmem.mp h))
  · intro a b ha hb
    rw [builtBoard_neighbors_mem numRows numColumns numMines hR hC a b ha hb,
      builtBoard_neighbors_mem numRows numColumns numMines hR hC b a hb ha]
    unfold adjacent
    constructor
    · rintro ⟨g1, g2, g3⟩
      exact ⟨fun h => g1 h.symm, ⟨g2.2, g2.1⟩, ⟨g3.2, g3.1⟩⟩
    · rintro ⟨g1, g2, g3⟩
      exact ⟨fun h => g1 h.symm, ⟨g2.2, g2.1⟩, ⟨g3.2, g3.1⟩⟩

theorem C8_neighbor_relation_witness :
    1 < UINT_MOD ∧ 4 < UINT_MOD ∧ 1 ≤ 1 ∧ 1 ≤ 4 ∧
    ∃ g, buildGrid 1 4 2 = .ok g ∧
      (∀ a, inGrid 1 4 a →
        ∀ p ∈ neighborIndices 1 4 a.row a.column, p.1 < 1 ∧ p.2 < 4) ∧
      (∀ a b, inGrid 1 4 a → inGrid 1 4 b →
        (g.neighbors a).count b = if adjacent a b then 1 else 0) ∧
      (∀ a b, inGrid 1 4 a → inGrid 1 4 b → (b ∈ g.neighbors a ↔ a ∈ g.neighbors b)) :=
  ⟨by decide, by decide, by decide, by decide,
    C8_neighbor_relation 1 4 2 (by decide) (by decide) (by decide) (by decide)⟩

/-! ## Mine placement -/

/-- C1: the 3×3 board with one mine is accepted by construction, yet a first click on
its centre tile excludes all nine tiles, the candidate list is empty, and the access
`tiles[0]` of the placement loop is out of range: `placeMines` does not complete and
`m_mines` never receives its one mine. -/
theorem C1_centre_click_out_of_range :
    validMineCount 3 3 1 = true ∧
    succeeded (initializeBoard 3 3 1) = true ∧
    candidatePool (builtBoard 3 3 1) ⟨1, 1⟩ = [] ∧
    failureOf (firstClick id 3 3 1 ⟨1, 1⟩) = some Failure.outOfRange ∧
    minesOf (firstClick id 3 3 1 ⟨1, 1⟩) = none := by
  decide

/-- C6 (as stated, refuted): on the accepted 4×4 board with 12 mines a first click on
the corner tile leaves a pool of exactly 12 candidates, so `mineCount >= |pool|`
holds, and `placeMines` completes with 12 mines instead of failing. -/
theorem C6_counterexample :
    validMineCount 4 4 12 = true ∧
    (candidatePool (builtBoard 4 4 12) ⟨0, 0⟩).length = 12 ∧
    failureOf (firstClick id 4 4 12 ⟨0, 0⟩) = none ∧
    (minesOf (firstClick id 4 4 12 ⟨0, 0⟩)).map List.length = some 12 := by
  decide

/-- C6 (amended): for every accepted board, first-clicked tile and shuffle outcome,
when `mineCount` does not exceed the size of the candidate pool (equality included)
`placeMines` completes, emits `initialized`, and leaves exactly `mineCount` mines,
all of them tiles of the pool. -/
theorem C6_placement_fits (shuffle : List Tile → List Tile)
    (hperm : ∀ l, (shuffle l).Perm l) (numRows numColumns numMines : Nat)
    (firstClicked : Tile)
    (hvalid : validMineCount numRows numColumns numMines = true) :
    ∃ b, initializeBoard numRows numColumns numMines = .ok b ∧
      (numMines ≤ (candidatePool b firstClicked).length →
        ∃ b', placeMines shuffle b firstClicked = .ok (b', [Signal.initialized]) ∧
          b'.m_mines.length = numMines ∧
          ∀ t ∈ b'.m_mines, t ∈ candidatePool b firstClicked) := by
  refine ⟨_, initializeBoard_eq numRows numColumns numMines hvalid, ?_⟩
  intro hroom
  refine ⟨_, placeMines_builtBoard shuffle hperm numRows numColumns numMines
    firstClicked hroom, ?_, ?_⟩
  · simp only [List.length_take, List.Perm.length_eq (hperm _)]
    omega
  · intro t ht
    exact (List.Perm.mem_iff (hperm _)).mp (List.mem_of_mem_take ht)

theorem C6_placement_fits_witness :
    (∀ l : List Tile, (List.reverse l).Perm l) ∧
    validMineCount 4 4 12 = true ∧
    ∃ b, initializeBoard 4 4 12 = .ok b ∧
      (12 ≤ (candidatePool b ⟨0, 0⟩).length →
        ∃ b', placeMines List.reverse b ⟨0, 0⟩ = .ok (b', [Signal.initialized]) ∧
          b'.m_mines.length = 12 ∧
          ∀ t ∈ b'.m_mines, t ∈ candidatePool b ⟨0, 0⟩) :=
  ⟨fun l => List.reverse_perm l, by decide,
    C6_placement_fits List.reverse (fun l => List.reverse_perm l) 4 4 12 ⟨0, 0⟩
      (by decide)⟩

/-- C9: for every accepted configuration with `mineCount + 9 < rows * columns`, every
first-clicked tile and every shuffle outcome, the candidate list built by
`placeMines` has more than `mineCount` entries, every access `tiles[i]` with
`i < mineCount` is in range, and placement completes with `mineCount` pairwise
distinct mined tiles. -/
theorem C9_placement_in_range (shuffle : List Tile → List Tile)
    (hperm : ∀ l, (shuffle l).Perm l) (numRows numColumns numMines : Nat)
    (firstClicked : Tile)
    (hvalid : validMineCount numRows numColumns numMines = true)
    (hroom : numMines + 9 < numRows * numColumns) :
    ∃ b, initializeBoard numRows numColumns numMines = .ok b ∧
      ∃ m_tiles tiles, collectCandidates b firstClicked = .ok (m_tiles, tiles) ∧
        numMines < tiles.length ∧
        (∀ i, i < numMines → ∃ t, (shuffle tiles)[i]? = some t) ∧
        ∃ b', placeMines shuffle b firstClicked = .ok (b', [Signal.initialized]) ∧
          b'.m_mines.length = numMines ∧ b'.m_mines.Nodup := by
  have hpool := builtBoard_pool_length numRows numColumns numMines firstClicked
  have hc := collectCandidates_eq (builtBoard numRows numColumns numMines) firstClicked rfl
  rw [candidates_eq_pool] at hc
  have hnd : (shuffle (candidatePool (builtBoard numRows numColumns numMines)
      firstClicked)).Nodup :=
    (List.Perm.nodup_iff (hperm _)).mpr
      (candidatePool_nodup _ _ (grid_flatten_nodup numRows numColumns))
  refine ⟨_, initializeBoard_eq numRows numColumns numMines hvalid, _, _, hc, by omega,
    ?_, _, placeMines_builtBoard shuffle hperm numRows numColumns numMines firstClicked
      (by omega), ?_, ?_⟩
  · intro i hi
    have hlt : i < (shuffle (candidatePool (builtBoard numRows numColumns numMines)
        firstClicked)).length := by
      rw [List.Perm.length_eq (hperm _)]
      omega
    exact ⟨_, List.getElem?_eq_getElem hlt⟩
  · simp only [List.length_take, List.Perm.length_eq (hperm _)]
    omega
  · exact List.Nodup.sublist (List.take_sublist _ _) hnd

theorem C9_placement_in_range_witness :
    (∀ l : List Tile, (List.reverse l).Perm l) ∧
    validMineCount 4 5 10 = true ∧ 10 + 9 < 4 * 5 ∧
    ∃ b, initializeBoard 4 5 10 = .ok b ∧
      ∃ m_tiles tiles, collectCandidates b ⟨1, 2⟩ = .ok (m_tiles, tiles) ∧
        10 < tiles.length ∧
        (∀ i, i < 10 → ∃ t, (List.reverse tiles)[i]? = some t) ∧
        ∃ b', placeMines List.reverse b ⟨1, 2⟩ = .ok (b', [Signal.initialized]) ∧
          b'.m_mines.length = 10 ∧ b'.m_mines.Nodup :=
  ⟨fun l => List.reverse_perm l, by decide, by decide,
    C9_placement_in_range List.reverse (fun l => List.reverse_perm l) 4 5 10 ⟨1, 2⟩
      (by decide) (by decide)⟩

/-! ## Victory, quit, defeat -/

/-- The value `m_numColumns * m_numRows - m_numMines` computed by `checkVictory` is
the number of non-mine cells when the cell count fits in 32 bits. -/
theorem victoryTarget_eq (numRows numColumns numMines : Nat)
    (hfit : numRows * numColumns < UINT_MOD) (hmines : numMines ≤ numRows * numColumns) :
    usub (umul numColumns numRows) numMines = numRows * numColumns - numMines := by
  have h1 : umul numColumns numRows = numRows * numColumns := by
    unfold umul
    rw [Nat.mul_comm numColumns numRows, Nat.mod_eq_of_lt hfit]
  rw [h1]
  generalize numRows * numColumns = p at *
  simp only [usub, UINT_MOD] at *
  omega

/-- C2 (as stated, refuted): in a state recorded as a defeat (`defeat` was emitted,
no victory declared) whose 8 revealed tiles are all non-mine cells of the 3×3 board
with one mine and whose incorrect-flag set is empty, `checkVictory` emits `victory`
although the outcome is no longer `InProgress`. -/
theorem C2_counterexample :
    outcome (onDefeat clearedBoard) = Outcome.Defeat ∧
    (onDefeat clearedBoard).m_revealedTiles.length = 3 * 3 - 1 ∧
    (onDefeat clearedBoard).m_incorrectFlags = [] ∧
    Signal.victory ∈ (checkVictory (onDefeat clearedBoard)).2 := by
  decide

/-- C2 (amended): on a board whose cell count fits in 32 bits and whose mine count
does not exceed it, `checkVictory` emits `victory` exactly when no victory was
declared before (`m_victory` is false; a recorded defeat does not block it), the
number of revealed tiles is `rows * columns - mineCount`, and the incorrect-flag set
is empty; it then sets `m_victory`. In particular flagging a non-mine tile never
yields `victory`. -/
theorem C2_checkVictory (b : GameBoard)
    (hfit : b.m_numRows * b.m_numColumns < UINT_MOD)
    (hmines : b.m_numMines ≤ b.m_numRows * b.m_numColumns) :
    (Signal.victory ∈ (checkVictory b).2 ↔
      (b.m_victory = false ∧
        b.m_revealedTiles.length = b.m_numRows * b.m_numColumns - b.m_numMines ∧
        b.m_incorrectFlags = [])) ∧
    (Signal.victory ∈ (checkVictory b).2 → (checkVictory b).1.m_victory = true) ∧
    (∀ tile, Signal.victory ∉ (onFlagged b tile false).2) := by
  have ht := victoryTarget_eq b.m_numRows b.m_numColumns b.m_numMines hfit hmines
  have key : ∀ c : GameBoard,
      usub (umul c.m_numColumns c.m_numRows) c.m_numMines
        = b.m_numRows * b.m_numColumns - b.m_numMines →
      (Signal.victory ∈ (checkVictory c).2 ↔
        (c.m_victory = false ∧
          c.m_revealedTiles.length = b.m_numRows * b.m_numColumns - b.m_numMines ∧
          c.m_incorrectFlags = [])) ∧
      (Signal.victory ∈ (checkVictory c).2 → (checkVictory c).1.m_victory = true) := by
    intro c hc
    unfold checkVictory
    rw [hc]
    generalize b.m_numRows * b.m_numColumns - b.m_numMines = target
    cases hv : c.m_victory
    · by_cases hcond : (c.m_revealedTiles.length == target && c.m_incorrectFlags.isEmpty) = true
      · have hcond' := hcond
        simp only [Bool.and_eq_true, beq_iff_eq, List.isEmpty_iff] at hcond'
        simp [hcond, hcond'.1, hcond'.2]
      · have hcond' := hcond
        simp only [Bool.and_eq_true, beq_iff_eq, List.isEmpty_iff] at hcond'
        simp only [Bool.not_false, if_true, hcond, Bool.false_eq_true, if_false]
        simp only [List.mem_singleton, reduceCtorEq, false_iff, false_implies, and_true,
          true_and]
        exact hcond'
    · simp
  refine ⟨(key b ht).1, (key b ht).2, ?_⟩
  intro tile
  have hne : qsetInsert b.m_incorrectFlags tile ≠ [] := by
    intro h
    have hm : tile ∈ qsetInsert b.m_incorrectFlags tile :=
      (qsetInsert_mem _ _ _).mpr (Or.inr rfl)
    rw [h] at hm
    exact absurd hm (List.not_mem_nil _)
  have hk := (key { b with m_incorrectFlags := qsetInsert b.m_incorrectFlags tile } ht).1
  intro hmem
  have hmem' : Signal.victory ∈ (checkVictory
      { b with m_incorrectFlags := qsetInsert b.m_incorrectFlags tile }).2 := hmem
  exact hne (hk.mp hmem').2.2

theorem C2_checkVictory_witness :
    clearedBoard.m_numRows * clearedBoard.m_numColumns < UINT_MOD ∧
    clearedBoard.m_numMines ≤ clearedBoard.m_numRows * clearedBoard.m_numColumns ∧
    (Signal.victory ∈ (checkVictory clearedBoard).2 ↔
      (clearedBoard.m_victory = false ∧
        clearedBoard.m_revealedTiles.length
          = clearedBoard.m_numRows * clearedBoard.m_numColumns - clearedBoard.m_numMines ∧
        clearedBoard.m_incorrectFlags = [])) ∧
    (Signal.victory ∈ (checkVictory clearedBoard).2 →
      (checkVictory clearedBoard).1.m_victory = true) ∧
    (∀ tile, Signal.victory ∉ (onFlagged clearedBoard tile false).2) :=
  ⟨by decide, by decide, C2_checkVictory clearedBoard (by decide) (by decide)⟩

/-- Once the defeat sequence has run on `placedBoard`, its mine is disconnected while
`m_mines` still holds it: `quit` emits `detonated` and no defeat sequence follows. -/
theorem quit_after_defeat :
    outcome (detonatedSlot (fun _ => false) placedBoard ⟨0, 2⟩).1 = Outcome.Defeat ∧
    (detonatedSlot (fun _ => false) placedBoard ⟨0, 2⟩).1.m_mines = [⟨0, 2⟩] ∧
    quit (detonatedSlot (fun _ => false) placedBoard ⟨0, 2⟩).1
      = .ok [Signal.detonated ⟨0, 2⟩] ∧
    (detonatedSlot (fun _ => false)
      (detonatedSlot (fun _ => false) placedBoard ⟨0, 2⟩).1 ⟨0, 2⟩).2 = [] := by
  refine ⟨by decide, by decide, rfl, by decide⟩

theorem foldl_reveal_mem (isFlagged : Tile → Bool) (mines : List Tile)
    (out : List Signal) (s : Signal) :
    s ∈ mines.foldl
        (fun out mine => if !isFlagged mine then out ++ [Signal.reveal mine] else out) out
      ↔ s ∈ out ∨ ∃ t, t ∈ mines ∧ isFlagged t = false ∧ s = Signal.reveal t := by
  induction mines generalizing out with
  | nil => simp
  | cons m rest ih =>
    rw [List.foldl_cons, ih]
    cases hf : isFlagged m
    · simp only [Bool.not_false, if_true, List.mem_append, List.mem_cons, List.not_mem_nil,
        or_false]
      constructor
      · rintro ((h | h) | ⟨t, h1, h2, h3⟩)
        · exact Or.inl h
        · exact Or.inr ⟨m, Or.inl rfl, hf, h⟩
        · exact Or.inr ⟨t, Or.inr h1, h2, h3⟩
      · rintro (h | ⟨t, h1 | h1, h2, h3⟩)
        · exact Or.inl (Or.inl h)
        · subst h1; exact Or.inl (Or.inr h3)
        · exact Or.inr ⟨t, h1, h2, h3⟩
    · simp only [Bool.not_true, Bool.false_eq_true, if_false, List.mem_cons]
      constructor
      · rintro (h | ⟨t, h1, h2, h3⟩)
        · exact Or.inl h
        · exact Or.inr ⟨t, Or.inr h1, h2, h3⟩
      · rintro (h | ⟨t, h1 | h1, h2, h3⟩)
        · exact Or.inl h
        · subst h1; rw [hf] at h2; exact absurd h2 (by decide)
        · exact Or.inr ⟨t, h1, h2, h3⟩

/-- The signals gathered by the loop of `defeatAnimation` do not depend on the
connections it removes. -/
theorem defeatLoop_signals (isFlagged : Tile → Bool) (mines : List Tile)
    (st : List Tile × List Signal) :
    (mines.foldl (defeatLoopBody isFlagged) st).2
      = mines.foldl
          (fun out mine => if !isFlagged mine then out ++ [Signal.reveal mine] else out)
          st.2 := by
  induction mines generalizing st with
  | nil => rfl
  | cons m rest ih =>
    rw [List.foldl_cons, List.foldl_cons, ih]
    rfl

theorem forceRevealed_mem (signals : List Signal) (t : Tile) :
    t ∈ forceRevealed signals ↔ Signal.reveal t ∈ signals := by
  unfold forceRevealed
  rw [List.mem_filterMap]
  constructor
  · rintro ⟨s, hs, h⟩
    cases s <;> simp at h
    subst h
    exact hs
  · intro h
    exact ⟨Signal.reveal t, h, rfl⟩

/-- C10 (as stated, refuted): on the 3×3 board with one mine, first click on (0,0)
and the identity shuffle, the mine is tile (0,2); when that tile detonates unflagged,
the defeat sequence force-reveals the detonated tile itself. -/
theorem C10_counterexample :
    ∃ r, firstClick id 3 3 1 ⟨0, 0⟩ = .ok r ∧ r.1.m_mines = [⟨0, 2⟩] ∧
      (⟨0, 2⟩ : Tile) ∈ forceRevealed (defeatAnimation (fun _ => false) r.1 ⟨0, 2⟩).2.2 := by
  have h1 : firstClick id 3 3 1 ⟨0, 0⟩ = placeMines id (builtBoard 3 3 1) ⟨0, 0⟩ := by
    unfold firstClick
    rw [initializeBoard_eq 3 3 1 (by decide)]
  have h2 := placeMines_builtBoard id (fun l => List.Perm.refl l) 3 3 1 ⟨0, 0⟩ (by decide)
  rw [← h1] at h2
  exact ⟨_, h2, by decide, by decide⟩

/-- C10 (amended): in the defeat sequence the tiles that receive a force-reveal are
exactly the mines that are not flagged, the detonated tile included when it is an
unflagged mine: no flagged mine and no non-mine tile receives one. The sequence ends
by emitting `defeat`, which records the defeat. -/
theorem C10_defeat_reveals (isFlagged : Tile → Bool) (b : GameBoard) (sender t : Tile) :
    (t ∈ forceRevealed (defeatAnimation isFlagged b sender).2.2 ↔
      (t ∈ b.m_mines ∧ isFlagged t = false)) ∧
    Signal.defeat ∈ (defeatAnimation isFlagged b sender).2.2 ∧
    (defeatAnimation isFlagged b sender).1.explosionVictory = some false := by
  refine ⟨?_, by simp [defeatAnimation], rfl⟩
  rw [forceRevealed_mem]
  simp only [defeatAnimation, defeatLoop_signals, List.mem_append, List.mem_singleton,
    reduceCtorEq, or_false, foldl_reveal_mem, List.not_mem_nil, false_or,
    Signal.reveal.injEq]
  constructor
  · rintro ⟨u, h1, h2, h3⟩
    subst h3
    exact ⟨h1, h2⟩
  · rintro ⟨h1, h2⟩
    exact ⟨t, h1, h2, rfl⟩

end Minesweeper
